import Mathlib

/-!
Verification development for the LogToolPro backend (Rust, Tauri).

The three source files are embedded shallowly:
  * `src-tauri/src/lib.rs`   — chain tracing (`parse_chain_line`,
    `is_valid_chain_node`, `trace_chain_recursive`, `trace_server_chain`).
  * `src-tauri/src/ssh_session.rs` — the PTY session manager and its
    per-session reader loop.
  * `src-tauri/src/crypto.rs` — password encryption (AES-256-GCM via an
    abstract AEAD primitive, plus a concrete Base64 codec).

SSH/network I/O is modelled by an oracle function; every invocation of the
remote executor is additionally recorded in an observation list so that
"which host was contacted with which command" is provable.  Machine strings
are Lean `String`s; byte sequences are `List Nat` with explicit `< 256`
bounds.
-/

/-- Search-progress state threaded through the tracer: the `trace_log`
vector, the `visited_ips` set (as a duplicate-free list), and the
observation trace of `execute_ssh_for_chain` invocations (host, command). -/
structure TraceState where
  traceLog : List String
  visited : List String
  execCalls : List (String × String)
deriving Repr, DecidableEq

/-- Models `trace_log.push(line)` from the Rust source. -/
def pushLog (st : TraceState) (line : String) : TraceState :=
  { st with traceLog := st.traceLog ++ [line] }

/-- Records one invocation of `execute_ssh_for_chain` in the observation
trace. -/
def recordExec (st : TraceState) (host command : String) : TraceState :=
  { st with execCalls := st.execCalls ++ [(host, command)] }

/-- The network: given host, port, username, password and a shell command,
either the remote stdout or an error string.  Models `execute_ssh_for_chain`
(lib.rs lines 300-342), whose TCP/SSH plumbing is pure I/O. -/
def ExecOracle : Type :=
  String → Nat → String → String → String → Except String String

/-- One entry of the `known_servers` vector (`ServerConfig`, lib.rs 24-34). -/
structure ServerConfig where
  id : String
  host : String
  port : Nat
  username : String
  password : String
  description : String
  environment : String
  status : String
deriving Repr, DecidableEq

/-- A node of the traced chain (`ChainNode`, lib.rs 281-287). -/
inductive ChainNode where
  | mk (filename dus_id ip log_path : String) (children : List ChainNode)

def ChainNode.filename : ChainNode → String
  | .mk f _ _ _ _ => f

def ChainNode.dus_id : ChainNode → String
  | .mk _ d _ _ _ => d

def ChainNode.ip : ChainNode → String
  | .mk _ _ i _ _ => i

def ChainNode.log_path : ChainNode → String
  | .mk _ _ _ l _ => l

def ChainNode.children : ChainNode → List ChainNode
  | .mk _ _ _ _ c => c

/-- The result record of `trace_server_chain` (lib.rs 291-297); the
wall-clock `duration_ms` field is not modelled. -/
structure ChainTraceResult where
  nodes : List ChainNode
  trace_log : List String
  total_hops : Nat
  error : Option String

/-- Helper for `splitWhitespace`: walk the characters accumulating the
current (reversed) token. -/
def splitWhitespaceAux : List Char → List Char → List String
  | [], acc => if acc.isEmpty then [] else [String.mk acc.reverse]
  | c :: cs, acc =>
    if c.isWhitespace then
      if acc.isEmpty then splitWhitespaceAux cs []
      else String.mk acc.reverse :: splitWhitespaceAux cs []
    else splitWhitespaceAux cs (c :: acc)

/-- Rust `str::split_whitespace`: maximal runs of non-whitespace
characters, no empty tokens (ASCII whitespace; the logs processed here are
ASCII-separated). -/
def splitWhitespace (s : String) : List String :=
  splitWhitespaceAux s.data []

/-- Drops one trailing carriage return from a reversed line buffer. -/
def dropCR : List Char → List Char
  | '\r' :: t => t
  | acc => acc

/-- Helper for `rustLines`: split the character stream at newlines,
stripping one trailing carriage return per piece. -/
def rustLinesAux : List Char → List Char → List String
  | [], acc => [String.mk (dropCR acc).reverse]
  | c :: cs, acc =>
    if c = '\n' then String.mk (dropCR acc).reverse :: rustLinesAux cs []
    else rustLinesAux cs (c :: acc)

/-- Rust `str::lines` up to empty pieces: the source immediately filters
empty lines out, and modulo that filtering the final-piece handling of
`str::lines` coincides with plain newline splitting. -/
def rustLines (s : String) : List String :=
  rustLinesAux s.data []

/-- Models `output.lines().filter(|l| !l.is_empty())` from the source. -/
def nonEmptyLines (s : String) : List String :=
  (rustLines s).filter (fun l => !l.data.isEmpty)

/-- Rust `trim_start_matches("./")`: removes every leading occurrence of
the prefix, repeatedly. -/
def stripDotSlashAux : List Char → List Char
  | '.' :: '/' :: rest => stripDotSlashAux rest
  | cs => cs

def trimStartDotSlash (s : String) : String :=
  String.mk (stripDotSlashAux s.data)

/-- Rust `str::starts_with(c: char)`: the first character equals `c`. -/
def startsWithChar (s : String) (c : Char) : Bool :=
  match s.data with
  | [] => false
  | c0 :: _ => c0 == c

/-- Function `parse_chain_line` (lib.rs 345-355): a line parses exactly when it has
at least three whitespace-separated tokens; the first token has all leading
`./` stripped. -/
def parse_chain_line (line : String) : Option (String × String × String) :=
  match splitWhitespace line with
  | p0 :: p1 :: p2 :: _ => some (trimStartDotSlash p0, p1, p2)
  | _ => none

/-- Function `is_valid_chain_node` (lib.rs 358-360): B or C prefix. -/
def is_valid_chain_node (dus_id : String) : Bool :=
  startsWithChar dus_id 'B' || startsWithChar dus_id 'C'

/-- The primary search command built in `trace_chain_recursive`
(lib.rs 390-393). -/
def primaryCmd (logPath traceId : String) : String :=
  s!"cd {logPath} && find . -maxdepth 1 -name \"*log*\" -print0 | xargs -0 -P $(nproc) grep -H -F \x27{traceId}\x27 2>/dev/null | grep -F \x27PEER\x27 | sed -n \x27s/^\\([^:]*\\):.*DESTDUS=\\([^|]*\\).*PEER=\\([0-9.]*\\).*/\\1 \\2 \\3/p\x27 | grep -v \x27N/A\x27 | sort -u"

/-- The secondary (fallback) search command (lib.rs 406-409). -/
def fallbackCmd (logPath traceId : String) : String :=
  s!"cd {logPath} && find . -maxdepth 1 -name \"*app*log*\" -print0 | xargs -0 -P $(nproc) grep -H -F \x27{traceId}\x27 2>/dev/null | awk -F: \x27/dusCode/ \x7b filename = $1; sub(/^\\.\\//, \"\", filename); text = $0; sub(/.*dusCode : /, \"\", text); split(text, codes, \" \"); print filename, \" \", codes[1] \x7d\x27"

/-- Flag `has_non_g` (lib.rs 400): some line parses and its id does not start
with `G`. -/
def hasNonG (lines : List String) : Bool :=
  lines.any fun l =>
    match parse_chain_line l with
    | some (_, id, _) => !startsWithChar id 'G'
    | none => false

/-- The fallback trigger `lines.is_empty() || !has_non_g` (lib.rs 403). -/
def needsFallback (lines : List String) : Bool :=
  lines.isEmpty || !hasNonG lines

/-- The per-line loop of the fallback block (lib.rs 412-427): every
non-empty output line with at least two whitespace tokens becomes a leaf
node whose ip is the current host. -/
def fbCollect (host logPath : String) : List String → TraceState →
    TraceState × List ChainNode
  | [], st => (st, [])
  | l :: rest, st =>
    match splitWhitespace l with
    | p0 :: p1 :: _ =>
      let st := pushLog st s!"  -> [Fallback] found {p0} {p1} on {host}"
      let (st, ns) := fbCollect host logPath rest st
      (st, ChainNode.mk p0 p1 host logPath [] :: ns)
    | _ => fbCollect host logPath rest st

/-- The fallback phase of one host visit (lib.rs 399-429): when the primary
result is empty or all-router, log, run the secondary command, and collect
leaf nodes; a failing secondary command is swallowed. -/
def fallbackPhase (oracle : ExecOracle) (host : String) (port : Nat)
    (username password traceId logPath : String) (depth : Nat)
    (lines : List String) (st : TraceState) : TraceState × List ChainNode :=
  if needsFallback lines then
    let st := pushLog st s!"[{depth + 1}] Checking backup app logs on {host}..."
    let cmd := fallbackCmd logPath traceId
    let st := recordExec st host cmd
    match oracle host port username password cmd with
    | .ok fbOut => fbCollect host logPath (nonEmptyLines fbOut) st
    | .error _ => (st, [])
  else (st, [])

/-- The children computation of one primary-search line (lib.rs 446-472):
recurse only into a valid, not-yet-visited peer ip that is found among the
known servers; an unknown peer yields a configuration diagnostic, a failed
recursion an error line, and in every non-recursing case empty children. -/
def childrenStep
    (recurse : String → Nat → String → String → TraceState →
      TraceState × Except String (List ChainNode))
    (knownServers : List ServerConfig) (ip : String) (isValid : Bool)
    (st1 : TraceState) : TraceState × List ChainNode :=
  if isValid && !st1.visited.contains ip then
    match knownServers.find? (fun s => s.host == ip) with
    | some next =>
      let r := recurse next.host next.port next.username next.password st1
      match r.2 with
      | .ok cs => (r.1, cs)
      | .error e =>
        (pushLog r.1 s!"[ERROR] Failed to trace {ip}: {e}", [])
    | none =>
      (pushLog st1 s!"[ERROR] 发现下一节点 IP {ip} 不在配置列表中。请先在服务器配置中添加该节点才能继续追踪。", [])
  else (st1, [])

/-- The per-line loop of `trace_chain_recursive` (lib.rs 440-482),
parameterised by the recursive call used for valid unvisited next hops. -/
def processLines
    (recurse : String → Nat → String → String → TraceState →
      TraceState × Except String (List ChainNode))
    (host logPath : String) (knownServers : List ServerConfig) :
    List String → TraceState → TraceState × List ChainNode
  | [], st => (st, [])
  | line :: rest, st =>
    match parse_chain_line line with
    | none => processLines recurse host logPath knownServers rest st
    | some (filename, dus_id, ip) =>
      let isValid := is_valid_chain_node dus_id
      let nodeType := if isValid then "有效节点" else "路由节点"
      let st1 := pushLog st s!"  -> {filename} {dus_id} {ip} ({nodeType})"
      let sc := childrenStep recurse knownServers ip isValid st1
      let r2 := processLines recurse host logPath knownServers rest sc.1
      (r2.1, ChainNode.mk filename dus_id host logPath sc.2 :: r2.2)

/-- The body of `trace_chain_recursive` (lib.rs 363-487), with the
recursion depth turned into structural fuel: `traceGo` is invoked through
`trace_chain_recursive` below with `fuel = maxDepth - depth`, so the fuel-0
case coincides exactly with the `depth >= max_depth` guard of the source. -/
def traceGo (oracle : ExecOracle) (traceId logPath : String)
    (knownServers : List ServerConfig) (maxDepth : Nat) :
    Nat → String → Nat → String → String → Nat → TraceState →
    TraceState × Except String (List ChainNode)
  | 0, host, _, _, _, _, st =>
    (pushLog st s!"[WARN] Max depth {maxDepth} reached at {host}", .ok [])
  | fuel + 1, host, port, username, password, depth, st =>
    if maxDepth ≤ depth then
      (pushLog st s!"[WARN] Max depth {maxDepth} reached at {host}", .ok [])
    else if st.visited.contains host then
      (pushLog st s!"[SKIP] Already visited: {host}", .ok [])
    else
      let st := { st with visited := host :: st.visited }
      let st := pushLog st s!"[{depth + 1}] Searching on {host} ..."
      let command := primaryCmd logPath traceId
      let st := recordExec st host command
      match oracle host port username password command with
      | .error e => (st, .error e)
      | .ok output =>
        let lines := nonEmptyLines output
        let fb :=
          fallbackPhase oracle host port username password traceId logPath
            depth lines st
        if lines.isEmpty && fb.2.isEmpty then
          (pushLog fb.1 s!"[{depth + 1}] No results found on {host}", .ok [])
        else
          let n := lines.length
          let st2 := pushLog fb.1 s!"[{depth + 1}] Found {n} entries on {host}"
          let pr :=
            processLines
              (fun h p u pw s =>
                traceGo oracle traceId logPath knownServers maxDepth fuel
                  h p u pw (depth + 1) s)
              host logPath knownServers lines st2
          (pr.1, .ok (pr.2 ++ fb.2))

/-- Function `trace_chain_recursive` (lib.rs 363-487). -/
def trace_chain_recursive (oracle : ExecOracle) (host : String) (port : Nat)
    (username password traceId logPath : String) (st : TraceState)
    (knownServers : List ServerConfig) (depth maxDepth : Nat) :
    TraceState × Except String (List ChainNode) :=
  traceGo oracle traceId logPath knownServers maxDepth (maxDepth - depth)
    host port username password depth st

/-- The blocking closure of `trace_server_chain` (lib.rs 501-530): header
log lines, then the root recursive call with depth 0 and max depth 10. -/
def trace_server_chain_core (oracle : ExecOracle) (host : String)
    (port : Nat) (username password traceId logPath : String)
    (knownServers : List ServerConfig) :
    TraceState × Except String (List ChainNode) :=
  let st : TraceState :=
    { traceLog := ["=== 开始追踪交易链路 ===", s!"流水号: {traceId}",
        s!"起始服务器: {host}", s!"日志路径: {logPath}", ""]
      visited := []
      execCalls := [] }
  trace_chain_recursive oracle host port username password traceId logPath
    st knownServers 0 10

/-- Command `trace_server_chain` (lib.rs 489-552): wraps the root call into a
`ChainTraceResult`; on success appends the completion banner, on failure
returns an empty forest with a single `Error:` log line. -/
def trace_server_chain (oracle : ExecOracle) (host : String) (port : Nat)
    (username password traceId logPath : String)
    (knownServers : List ServerConfig) : ChainTraceResult :=
  match trace_server_chain_core oracle host port username password traceId
      logPath knownServers with
  | (st, .ok nodes) =>
    let totalHops := st.visited.length
    { nodes := nodes
      trace_log := st.traceLog ++ ["", s!"=== 追踪完成: 共访问 {totalHops} 个节点 ==="]
      total_hops := totalHops
      error := none }
  | (_, .error e) =>
    { nodes := []
      trace_log := [s!"Error: {e}"]
      total_hops := 0
      error := some e }

/-! ## crypto.rs — password encryption

Byte sequences are `List Nat` with a `< 256` bound carried as hypotheses.
A password string is modelled by its UTF-8 byte sequence, so the
`as_bytes` / `from_utf8` pair at the module boundary is the identity
embedding (the bytes handed to `from_utf8` always came from a valid
string).  The AES-256-GCM primitive (an external crate) is an oracle pair
`enc` / `dec`; the Base64 STANDARD engine is embedded concretely. -/

/-- Base64 standard-alphabet encoding of one sextet. -/
def b64EncChar (n : Nat) : Char :=
  if n < 26 then Char.ofNat (65 + n)
  else if n < 52 then Char.ofNat (97 + (n - 26))
  else if n < 62 then Char.ofNat (48 + (n - 52))
  else if n = 62 then '+' else '/'

/-- Base64 standard-alphabet decoding of one symbol. -/
def b64DecVal (c : Char) : Option Nat :=
  let v := c.toNat
  if 65 ≤ v ∧ v ≤ 90 then some (v - 65)
  else if 97 ≤ v ∧ v ≤ 122 then some (v - 97 + 26)
  else if 48 ≤ v ∧ v ≤ 57 then some (v - 48 + 52)
  else if v = 43 then some 62
  else if v = 47 then some 63
  else none

/-- Base64 STANDARD encoding (padded), three input bytes per four output
symbols. -/
def b64EncodeGroups : List Nat → List Char
  | [] => []
  | [b0] => [b64EncChar (b0 / 4), b64EncChar (b0 % 4 * 16), '=', '=']
  | [b0, b1] =>
    [b64EncChar (b0 / 4), b64EncChar (b0 % 4 * 16 + b1 / 16),
     b64EncChar (b1 % 16 * 4), '=']
  | b0 :: b1 :: b2 :: rest =>
    b64EncChar (b0 / 4) :: b64EncChar (b0 % 4 * 16 + b1 / 16) ::
    b64EncChar (b1 % 16 * 4 + b2 / 64) :: b64EncChar (b2 % 64) ::
    b64EncodeGroups rest

def b64Encode (bs : List Nat) : String :=
  String.mk (b64EncodeGroups bs)

/-- Base64 STANDARD decoding with canonical padding required and non-zero
trailing bits rejected, as the `base64` crate's STANDARD engine does. -/
def b64Decode : List Char → Except String (List Nat)
  | [] => .ok []
  | c0 :: c1 :: c2 :: c3 :: rest =>
    if c2 = '=' ∧ c3 = '=' ∧ rest = [] then
      match b64DecVal c0, b64DecVal c1 with
      | some s0, some s1 =>
        if s1 % 16 = 0 then .ok [s0 * 4 + s1 / 16]
        else .error "Invalid last symbol"
      | _, _ => .error "Invalid byte"
    else if c3 = '=' ∧ rest = [] then
      match b64DecVal c0, b64DecVal c1, b64DecVal c2 with
      | some s0, some s1, some s2 =>
        if s2 % 4 = 0 then .ok [s0 * 4 + s1 / 16, s1 % 16 * 16 + s2 / 4]
        else .error "Invalid last symbol"
      | _, _, _ => .error "Invalid byte"
    else
      match b64DecVal c0, b64DecVal c1, b64DecVal c2, b64DecVal c3 with
      | some s0, some s1, some s2, some s3 =>
        match b64Decode rest with
        | .ok tail =>
          .ok ((s0 * 4 + s1 / 16) :: (s1 % 16 * 16 + s2 / 4) ::
               (s2 % 4 * 64 + s3) :: tail)
        | .error e => .error e
      | _, _, _, _ => .error "Invalid byte"
  | _ => .error "Invalid input length"

/-- Function `encrypt_password` (crypto.rs 14-38).  The randomly drawn nonce is a
parameter (any 12-byte value); `enc` is the AEAD encryption oracle.  Empty
plaintext short-circuits to the empty string; otherwise the result is
Base64 of nonce ++ ciphertext. -/
def encrypt_password (enc : List Nat → List Nat → List Nat)
    (nonce plaintext : List Nat) : Except String String :=
  if plaintext.isEmpty then .ok ""
  else
    let ciphertext := enc nonce plaintext
    .ok (b64Encode (nonce ++ ciphertext))

/-- Function `decrypt_password` (crypto.rs 41-65).  `dec` is the AEAD decryption
oracle.  Empty input short-circuits; otherwise Base64-decode, check the
12-byte minimum, split nonce from ciphertext at 12, and decrypt.  The
plaintext is returned as its byte sequence (the final `from_utf8` is the
identity boundary of the byte-level model). -/
def decrypt_password (dec : List Nat → List Nat → Option (List Nat))
    (ciphertextB64 : String) : Except String (List Nat) :=
  if ciphertextB64.data.isEmpty then .ok []
  else
    match b64Decode ciphertextB64.data with
    | .error e => .error ("Base64 decode failed: " ++ e)
    | .ok combined =>
      if combined.length < 12 then .error "Invalid ciphertext: too short"
      else
        let nonce := combined.take 12
        let ct := combined.drop 12
        match dec nonce ct with
        | some pt => .ok pt
        | none => .error "Decryption failed"

/-! ## ssh_session.rs — session manager and reader loop

The registry (a concurrent map in the source) is a key-value list with
distinct keys; the SSH channel inside each session is pure I/O, so a
session entry is represented by its id key (the channel write / PTY-resize
effects are oracles passed to the operations).  Mutex acquisition is
modelled as always succeeding (the poisoned-lock arm is a concurrency
artefact outside a sequential embedding). -/

structure SessionManagerState where
  sessions : List (String × Bool)
deriving Repr, DecidableEq

/-- Operation `SessionManager::send_input` (ssh_session.rs 196-205): registry lookup,
then a channel write through the oracle. -/
def send_input (writeOracle : String → String → Except String Nat)
    (st : SessionManagerState) (sessionId data : String) :
    Except String Unit :=
  match st.sessions.find? (fun e => e.1 == sessionId) with
  | none => .error "Session not found"
  | some _ =>
    match writeOracle sessionId data with
    | .ok _ => .ok ()
    | .error e => .error e

/-- Operation `SessionManager::resize` (ssh_session.rs 207-215): registry lookup,
then `request_pty_size` through the oracle. -/
def resize (resizeOracle : String → Nat → Nat → Except String Unit)
    (st : SessionManagerState) (sessionId : String) (cols rows : Nat) :
    Except String Unit :=
  match st.sessions.find? (fun e => e.1 == sessionId) with
  | none => .error "Session not found"
  | some _ => resizeOracle sessionId cols rows

/-- Operation `SessionManager::close_session` (ssh_session.rs 217-224): remove the
entry if present (closing its channel is an I/O effect on the removed
session) and always return success. -/
def close_session (st : SessionManagerState) (sessionId : String) :
    SessionManagerState × Except String Unit :=
  ({ sessions := st.sessions.filter (fun e => !(e.1 == sessionId)) }, .ok ())

/-- One channel read attempt as seen by the reader loop: `Ok(0)`, `Ok(n)`
with its lossily decoded chunk, `WouldBlock`, or another error. -/
inductive ReadResult where
  | eofRead
  | chunk (data : String)
  | wouldBlock
  | readErr
deriving Repr, DecidableEq

/-- An event emitted to the frontend (`ssh-output` / `ssh-exit`). -/
inductive SshEvent where
  | output (sessionId data : String)
  | exit (sessionId : String)
deriving Repr, DecidableEq

/-- The reader loop spawned by `start_session` (ssh_session.rs 138-191),
driven by the observed iteration inputs: at the top of each iteration the
shutdown flag is consulted, then one read is attempted.  `Ok(0)` emits one
exit event and stops; a chunk emits one output event and continues;
would-block sleeps and continues; any other error stops silently.  The
registry is threaded through unchanged — the loop body never touches it. -/
def reader_loop (sid : String) (st : SessionManagerState) :
    List (Bool × ReadResult) → SessionManagerState × List SshEvent
  | [] => (st, [])
  | (shutdownFlag, r) :: rest =>
    if shutdownFlag then (st, [])
    else
      match r with
      | .eofRead => (st, [SshEvent.exit sid])
      | .chunk data =>
        let (st1, evs) := reader_loop sid st rest
        (st1, SshEvent.output sid data :: evs)
      | .wouldBlock => reader_loop sid st rest
      | .readErr => (st, [])

/-! ## Theorems -/

/-- C7: a line parses into a triple exactly when it has at least three
whitespace-separated tokens, taking the first three tokens with the leading
`./` occurrences removed from the first; a line with fewer than three
tokens yields no triple and is skipped by the per-line loop without
producing an error or a node. -/
theorem C7_parse_line_tokens :
    (∀ line f id ip, parse_chain_line line = some (f, id, ip) ↔
      ∃ t0 rest, splitWhitespace line = t0 :: id :: ip :: rest ∧
        f = trimStartDotSlash t0)
    ∧ (∀ line, (splitWhitespace line).length < 3 →
        parse_chain_line line = none)
    ∧ (∀ recurse host logPath ks line rest st,
        parse_chain_line line = none →
        processLines recurse host logPath ks (line :: rest) st =
          processLines recurse host logPath ks rest st) := by
  refine ⟨?_, ?_, ?_⟩
  · intro line f id ip
    unfold parse_chain_line
    cases h : splitWhitespace line with
    | nil => simp
    | cons p0 t =>
      cases t with
      | nil => simp
      | cons p1 t2 =>
        cases t2 with
        | nil => simp
        | cons p2 t3 =>
          constructor
          · intro he
            simp only [Option.some.injEq, Prod.mk.injEq] at he
            obtain ⟨h1, h2, h3⟩ := he
            subst h2; subst h3
            exact ⟨p0, t3, rfl, h1.symm⟩
          · rintro ⟨t0, rest, he, hf⟩
            simp only [List.cons.injEq] at he
            obtain ⟨h0, h1, h2, h3⟩ := he
            subst h0; subst hf
            simp [h1, h2]
  · intro line h
    unfold parse_chain_line
    cases hs : splitWhitespace line with
    | nil => rfl
    | cons p0 t =>
      cases t with
      | nil => rfl
      | cons p1 t2 =>
        cases t2 with
        | nil => rfl
        | cons p2 t3 =>
          rw [hs] at h
          simp only [List.length_cons] at h
          omega
  · intro recurse host logPath ks line rest st h
    simp only [processLines, h]

/-- C7 witness: concrete parse results and the skip behaviour of the loop
on an unparseable line. -/
theorem C7_parse_line_tokens_witness :
    parse_chain_line "only two" = none ∧
    (processLines (fun _ _ _ _ s => (s, .ok [])) "A" "/logs" []
        ["only two"] ⟨[], [], []⟩ =
      processLines (fun _ _ _ _ s => (s, .ok [])) "A" "/logs" []
        [] ⟨[], [], []⟩) := by
  refine ⟨?_, ?_⟩
  · exact C7_parse_line_tokens.2.1 "only two" (by decide)
  · exact C7_parse_line_tokens.2.2 _ "A" "/logs" [] "only two" []
      ⟨[], [], []⟩ (C7_parse_line_tokens.2.1 "only two" (by decide))

/-- C8: for a session id absent from the registry, `send_input` and
`resize` return the not-found error, while `close_session` succeeds and
leaves the registry unchanged; closing twice succeeds both times. -/
theorem C8_absent_session_id
    (writeOracle : String → String → Except String Nat)
    (resizeOracle : String → Nat → Nat → Except String Unit)
    (st : SessionManagerState) (x data : String) (cols rows : Nat)
    (h : ∀ e ∈ st.sessions, e.1 ≠ x) :
    send_input writeOracle st x data = .error "Session not found"
    ∧ resize resizeOracle st x cols rows = .error "Session not found"
    ∧ close_session st x = (st, .ok ())
    ∧ (close_session (close_session st x).1 x).2 = .ok () := by
  have hfind : st.sessions.find? (fun e => e.1 == x) = none := by
    rw [List.find?_eq_none]
    intro e he
    simpa using h e he
  have hfilter : st.sessions.filter (fun e => !(e.1 == x)) = st.sessions := by
    rw [List.filter_eq_self]
    intro e he
    simpa using h e he
  refine ⟨?_, ?_, ?_, rfl⟩
  · simp only [send_input, hfind]
  · simp only [resize, hfind]
  · simp only [close_session, hfilter]

/-- C8 witness: a one-entry registry and an id not in it. -/
theorem C8_absent_session_id_witness :
    send_input (fun _ _ => .ok 0) ⟨[("a", false)]⟩ "b" "x" =
      .error "Session not found"
    ∧ close_session ⟨[("a", false)]⟩ "b" = (⟨[("a", false)]⟩, .ok ()) := by
  have h := C8_absent_session_id (fun _ _ => .ok 0) (fun _ _ _ => .ok ())
    ⟨[("a", false)]⟩ "b" "x" 80 24 (by decide)
  exact ⟨h.1, h.2.2.1⟩

/-- C9: the reader loop checks the shutdown flag at the top of each
iteration — once an iteration starts with the flag set, the loop stops and
no further events are emitted regardless of later inputs; a zero-byte read
emits exactly one exit event tagged with the session id and terminates;
the loop never modifies the registry (removal is `close_session`'s job). -/
theorem C9_reader_loop_shutdown_eof :
    (∀ sid st pre r rest,
      reader_loop sid st (pre ++ (true, r) :: rest) =
        reader_loop sid st (pre ++ [(true, r)]))
    ∧ (∀ sid st r rest, reader_loop sid st ((true, r) :: rest) = (st, []))
    ∧ (∀ sid st pre rest,
        (∀ q ∈ pre, q.1 = false ∧
          (q.2 = ReadResult.wouldBlock ∨ ∃ d, q.2 = ReadResult.chunk d)) →
        reader_loop sid st (pre ++ (false, ReadResult.eofRead) :: rest) =
          (st, (pre.filterMap fun q =>
            match q.2 with
            | ReadResult.chunk d => some (SshEvent.output sid d)
            | _ => none) ++ [SshEvent.exit sid]))
    ∧ (∀ sid st ins, (reader_loop sid st ins).1 = st) := by
  have hfst : ∀ sid st ins, (reader_loop sid st ins).1 = st := by
    intro sid st ins
    induction ins with
    | nil => rfl
    | cons q rest ih =>
      obtain ⟨flag, r⟩ := q
      cases flag with
      | true => rfl
      | false =>
        cases r with
        | eofRead => rfl
        | chunk d => simpa [reader_loop] using ih
        | wouldBlock => simpa [reader_loop] using ih
        | readErr => rfl
  refine ⟨?_, ?_, ?_, hfst⟩
  · intro sid st pre r rest
    induction pre with
    | nil => rfl
    | cons q pre ih =>
      obtain ⟨flag, rr⟩ := q
      cases flag with
      | true => rfl
      | false =>
        cases rr with
        | eofRead => rfl
        | chunk d => simp [reader_loop, ih]
        | wouldBlock => simpa [reader_loop] using ih
        | readErr => rfl
  · intro sid st r rest; rfl
  · intro sid st pre rest
    induction pre with
    | nil => intro _; rfl
    | cons q pre ih =>
      intro hpre
      obtain ⟨flag, rr⟩ := q
      obtain ⟨hflag, hrr⟩ := hpre (flag, rr) (List.mem_cons_self _ _)
      have ih' := ih (fun q2 hq2 => hpre q2 (List.mem_cons_of_mem _ hq2))
      simp only at hflag
      subst hflag
      rcases hrr with hwb | ⟨d, hd⟩
      · simp only at hwb
        subst hwb
        simpa [reader_loop] using ih'
      · simp only at hd
        subst hd
        simp [reader_loop, ih']

/-- C9 witness: one chunk then end-of-stream, with extra iterations after
the eof that are never reached. -/
theorem C9_reader_loop_shutdown_eof_witness :
    reader_loop "s" ⟨[]⟩
        [(false, ReadResult.chunk "x"), (false, ReadResult.eofRead),
         (false, ReadResult.chunk "y")] =
      (⟨[]⟩, [SshEvent.output "s" "x", SshEvent.exit "s"]) := by
  have h := C9_reader_loop_shutdown_eof.2.2.1 "s" ⟨[]⟩
    [(false, ReadResult.chunk "x")] [(false, ReadResult.chunk "y")]
    (by intro q hq; simp at hq; subst hq; exact ⟨rfl, Or.inr ⟨"x", rfl⟩⟩)
  simpa using h

/-- Decoding inverts encoding on a single sextet. -/
theorem b64DecVal_b64EncChar : ∀ n, n < 64 → b64DecVal (b64EncChar n) = some n := by
  decide

/-- The Base64 alphabet never produces a padding character. -/
theorem b64EncChar_ne_pad : ∀ n, n < 64 → b64EncChar n ≠ '=' := by
  decide

/-- Encoding a non-empty byte list yields a non-empty symbol list. -/
theorem b64EncodeGroups_ne_nil (b : Nat) (bs : List Nat) :
    b64EncodeGroups (b :: bs) ≠ [] := by
  cases bs with
  | nil => simp [b64EncodeGroups]
  | cons b1 t =>
    cases t with
    | nil => simp [b64EncodeGroups]
    | cons b2 r => simp [b64EncodeGroups]

/-- Base64 decoding inverts encoding on byte lists. -/
theorem b64Decode_b64EncodeGroups :
    ∀ bs : List Nat, (∀ b ∈ bs, b < 256) →
      b64Decode (b64EncodeGroups bs) = .ok bs
  | [], _ => rfl
  | [b0], h => by
    have h0 : b0 < 256 := h b0 (by simp)
    simp only [b64EncodeGroups, b64Decode]
    rw [b64DecVal_b64EncChar _ (by omega : b0 / 4 < 64),
      b64DecVal_b64EncChar _ (by omega : b0 % 4 * 16 < 64)]
    dsimp only
    rw [if_pos (by omega : b0 % 4 * 16 % 16 = 0)]
    rw [(by omega : b0 / 4 * 4 + b0 % 4 * 16 / 16 = b0)]
    simp
  | [b0, b1], h => by
    have h0 : b0 < 256 := h b0 (by simp)
    have h1 : b1 < 256 := h b1 (by simp)
    simp only [b64EncodeGroups, b64Decode]
    rw [if_neg (fun hc => b64EncChar_ne_pad (b1 % 16 * 4) (by omega) hc.1)]
    rw [if_pos (⟨trivial, trivial⟩ : True ∧ True)]
    rw [b64DecVal_b64EncChar _ (by omega : b0 / 4 < 64),
      b64DecVal_b64EncChar _ (by omega : b0 % 4 * 16 + b1 / 16 < 64),
      b64DecVal_b64EncChar _ (by omega : b1 % 16 * 4 < 64)]
    dsimp only
    rw [if_pos (by omega : b1 % 16 * 4 % 4 = 0)]
    rw [(by omega : b0 / 4 * 4 + (b0 % 4 * 16 + b1 / 16) / 16 = b0),
      (by omega : (b0 % 4 * 16 + b1 / 16) % 16 * 16 + b1 % 16 * 4 / 4 = b1)]
  | b0 :: b1 :: b2 :: rest, h => by
    have h0 : b0 < 256 := h b0 (by simp)
    have h1 : b1 < 256 := h b1 (by simp)
    have h2 : b2 < 256 := h b2 (by simp)
    have ih := b64Decode_b64EncodeGroups rest
      (fun b hb => h b (by simp [hb]))
    simp only [b64EncodeGroups, b64Decode]
    rw [if_neg (fun hc =>
      b64EncChar_ne_pad (b1 % 16 * 4 + b2 / 64) (by omega) hc.1)]
    rw [if_neg (fun hc =>
      b64EncChar_ne_pad (b2 % 64) (by omega) hc.1)]
    rw [b64DecVal_b64EncChar _ (by omega : b0 / 4 < 64),
      b64DecVal_b64EncChar _ (by omega : b0 % 4 * 16 + b1 / 16 < 64),
      b64DecVal_b64EncChar _ (by omega : b1 % 16 * 4 + b2 / 64 < 64),
      b64DecVal_b64EncChar _ (by omega : b2 % 64 < 64)]
    dsimp only
    rw [ih]
    dsimp only
    rw [(by omega : b0 / 4 * 4 + (b0 % 4 * 16 + b1 / 16) / 16 = b0),
      (by omega : (b0 % 4 * 16 + b1 / 16) % 16 * 16 +
        (b1 % 16 * 4 + b2 / 64) / 4 = b1),
      (by omega : (b1 % 16 * 4 + b2 / 64) % 4 * 64 + b2 % 64 = b2)]

/-- C10: for every plaintext byte sequence and every 12-byte nonce chosen
during encryption, decrypting the output of `encrypt_password` returns the
original plaintext, given the AEAD contract of the underlying cipher; the
empty password round-trips through the empty string, both without error. -/
theorem C10_encrypt_decrypt_roundtrip
    (enc : List Nat → List Nat → List Nat)
    (dec : List Nat → List Nat → Option (List Nat))
    (nonce p : List Nat)
    (hn : nonce.length = 12)
    (hnb : ∀ b ∈ nonce, b < 256)
    (hct : ∀ b ∈ enc nonce p, b < 256)
    (hdec : dec nonce (enc nonce p) = some p) :
    (∀ s, encrypt_password enc nonce p = .ok s →
      decrypt_password dec s = .ok p)
    ∧ encrypt_password enc nonce [] = .ok ""
    ∧ decrypt_password dec "" = .ok [] := by
  refine ⟨?_, rfl, rfl⟩
  intro s hs
  cases p with
  | nil =>
    simp only [encrypt_password, List.isEmpty_nil, if_true] at hs
    obtain rfl : s = "" := by
      cases hs
      rfl
    rfl
  | cons q0 qt =>
    rw [encrypt_password, if_neg (by simp)] at hs
    obtain rfl : s = b64Encode (nonce ++ enc nonce (q0 :: qt)) := by
      cases hs
      rfl
    have hbytes : ∀ b ∈ nonce ++ enc nonce (q0 :: qt), b < 256 := by
      intro b hb
      rcases List.mem_append.mp hb with h | h
      · exact hnb b h
      · exact hct b h
    have hcne : nonce ++ enc nonce (q0 :: qt) ≠ [] := by
      intro hc
      have := congrArg List.length hc
      simp [hn] at this
    have hne : (b64Encode (nonce ++ enc nonce (q0 :: qt))).data.isEmpty
        = false := by
      unfold b64Encode
      cases hcomb : nonce ++ enc nonce (q0 :: qt) with
      | nil => exact absurd hcomb hcne
      | cons b bs =>
        have hh := b64EncodeGroups_ne_nil b bs
        show (b64EncodeGroups (b :: bs)).isEmpty = false
        cases hE : b64EncodeGroups (b :: bs) with
        | nil => exact absurd hE hh
        | cons x xs => rfl
    rw [decrypt_password, if_neg (by rw [hne]; exact Bool.false_ne_true)]
    have hdata : (b64Encode (nonce ++ enc nonce (q0 :: qt))).data
        = b64EncodeGroups (nonce ++ enc nonce (q0 :: qt)) := rfl
    rw [hdata, b64Decode_b64EncodeGroups _ hbytes]
    dsimp only
    rw [if_neg (by
      rw [List.length_append, hn]
      omega)]
    have htake : (nonce ++ enc nonce (q0 :: qt)).take 12 = nonce := by
      rw [← hn]
      exact List.take_left nonce _
    have hdrop : (nonce ++ enc nonce (q0 :: qt)).drop 12
        = enc nonce (q0 :: qt) := by
      rw [← hn]
      exact List.drop_left nonce _
    rw [htake, hdrop, hdec]

/-- C10 witness: the identity cipher, the all-zero nonce and a two-byte
password, evaluated concretely through the Base64 codec. -/
theorem C10_encrypt_decrypt_roundtrip_witness :
    decrypt_password (fun _ c => some c)
        (b64Encode (List.replicate 12 0 ++ [104, 105])) = .ok [104, 105]
    ∧ decrypt_password (fun _ c => some c) "" = .ok [] := by
  have h := C10_encrypt_decrypt_roundtrip (fun _ m => m) (fun _ c => some c)
    (List.replicate 12 0) [104, 105] (by decide) (by decide) (by decide) rfl
  exact ⟨h.1 _ rfl, h.2.2⟩

/-- Pushing a log line does not change the visited set. -/
theorem pushLog_visited (st : TraceState) (l : String) :
    (pushLog st l).visited = st.visited := rfl

/-- Pushing a log line does not change the observation trace. -/
theorem pushLog_execCalls (st : TraceState) (l : String) :
    (pushLog st l).execCalls = st.execCalls := rfl

/-- Recording an execution does not change the visited set. -/
theorem recordExec_visited (st : TraceState) (h c : String) :
    (recordExec st h c).visited = st.visited := rfl

/-- The fallback collection loop changes neither the visited set nor the
observation trace. -/
theorem fbCollect_state (host lp : String) :
    ∀ ls st, ((fbCollect host lp ls st).1).visited = st.visited
      ∧ ((fbCollect host lp ls st).1).execCalls = st.execCalls := by
  intro ls
  induction ls with
  | nil => intro st; exact ⟨rfl, rfl⟩
  | cons l rest ih =>
    intro st
    simp only [fbCollect]
    cases hsw : splitWhitespace l with
    | nil => exact ih st
    | cons p0 t =>
      cases t with
      | nil => exact ih st
      | cons p1 t2 =>
        dsimp only
        exact ⟨(ih _).1, (ih _).2⟩

/-- Every node built by the fallback collection loop is a leaf carrying the
current host as its ip. -/
theorem fbCollect_nodes (host lp : String) :
    ∀ ls st n, n ∈ (fbCollect host lp ls st).2 →
      n.ip = host ∧ n.children = [] := by
  intro ls
  induction ls with
  | nil => intro st n hn; exact absurd hn (by simp [fbCollect])
  | cons l rest ih =>
    intro st n hn
    simp only [fbCollect] at hn
    cases hsw : splitWhitespace l with
    | nil =>
      rw [hsw] at hn
      exact ih st n hn
    | cons p0 t =>
      cases t with
      | nil =>
        rw [hsw] at hn
        exact ih st n hn
      | cons p1 t2 =>
        rw [hsw] at hn
        dsimp only at hn
        rcases List.mem_cons.mp hn with rfl | hn2
        · exact ⟨rfl, rfl⟩
        · exact ih _ n hn2

/-- The fallback phase does not change the visited set. -/
theorem fallbackPhase_visited (oracle : ExecOracle) (host : String)
    (port : Nat) (u p tid lp : String) (d : Nat) (lines : List String)
    (st : TraceState) :
    ((fallbackPhase oracle host port u p tid lp d lines st).1).visited
      = st.visited := by
  unfold fallbackPhase
  split
  · dsimp only
    cases horacle : oracle host port u p (fallbackCmd lp tid) with
    | ok fbOut =>
      exact (fbCollect_state host lp (nonEmptyLines fbOut) _).1
    | error e => rfl
  · rfl

/-- The fallback phase records exactly one extra execution — the secondary
search command on the current host — when the trigger holds, and none
otherwise. -/
theorem fallbackPhase_execCalls (oracle : ExecOracle) (host : String)
    (port : Nat) (u p tid lp : String) (d : Nat) (lines : List String)
    (st : TraceState) :
    ((fallbackPhase oracle host port u p tid lp d lines st).1).execCalls
      = if needsFallback lines then
          st.execCalls ++ [(host, fallbackCmd lp tid)]
        else st.execCalls := by
  unfold fallbackPhase
  split
  · dsimp only
    cases horacle : oracle host port u p (fallbackCmd lp tid) with
    | ok fbOut =>
      exact (fbCollect_state host lp (nonEmptyLines fbOut) _).2
    | error e => rfl
  · rfl

/-- Every node produced by the fallback phase is a leaf carrying the
current host as its ip. -/
theorem fallbackPhase_nodes (oracle : ExecOracle) (host : String)
    (port : Nat) (u p tid lp : String) (d : Nat) (lines : List String)
    (st : TraceState) :
    ∀ n ∈ (fallbackPhase oracle host port u p tid lp d lines st).2,
      n.ip = host ∧ n.children = [] := by
  intro n hn
  unfold fallbackPhase at hn
  split at hn
  · dsimp only at hn
    cases horacle : oracle host port u p (fallbackCmd lp tid) with
    | ok fbOut =>
      rw [horacle] at hn
      exact fbCollect_nodes host lp (nonEmptyLines fbOut) _ n hn
    | error e =>
      rw [horacle] at hn
      exact absurd hn (by simp)
  · exact absurd hn (by simp)

/-- State-property preservation through the children computation. -/
theorem childrenStep_pres
    (recurse : String → Nat → String → String → TraceState →
      TraceState × Except String (List ChainNode))
    (ks : List ServerConfig) (ip : String) (isValid : Bool)
    (P : TraceState → Prop)
    (hpush : ∀ s l, P s → P (pushLog s l))
    (hrec : ∀ h2 p2 u2 pw2 s, P s → P ((recurse h2 p2 u2 pw2 s).1))
    (st1 : TraceState) (h1 : P st1) :
    P ((childrenStep recurse ks ip isValid st1).1) := by
  unfold childrenStep
  split
  · cases hfind : ks.find? (fun s => s.host == ip) with
    | some next =>
      dsimp only
      cases hres : (recurse next.host next.port next.username
          next.password st1).2 with
      | ok cs => exact hrec _ _ _ _ _ h1
      | error e => exact hpush _ _ (hrec _ _ _ _ _ h1)
    | none =>
      dsimp only
      exact hpush _ _ h1
  · exact h1

/-- State-property preservation through the per-line loop: any predicate
preserved by log pushes and by the recursive call is preserved by the whole
loop. -/
theorem processLines_pres
    (recurse : String → Nat → String → String → TraceState →
      TraceState × Except String (List ChainNode))
    (host lp : String) (ks : List ServerConfig) (P : TraceState → Prop)
    (hpush : ∀ s l, P s → P (pushLog s l))
    (hrec : ∀ h2 p2 u2 pw2 s, P s → P ((recurse h2 p2 u2 pw2 s).1)) :
    ∀ lines st, P st → P ((processLines recurse host lp ks lines st).1) := by
  intro lines
  induction lines with
  | nil => intro st hP; exact hP
  | cons line rest ih =>
    intro st hP
    simp only [processLines]
    cases hp : parse_chain_line line with
    | none => exact ih st hP
    | some trip =>
      obtain ⟨f, id, ip⟩ := trip
      dsimp only
      apply ih
      exact childrenStep_pres recurse ks ip _ P hpush hrec _ (hpush _ _ hP)

/-- If the recursive call always returns an empty ok-forest, the children
computation returns empty children. -/
theorem childrenStep_snd_nil
    (recurse : String → Nat → String → String → TraceState →
      TraceState × Except String (List ChainNode))
    (ks : List ServerConfig) (ip : String) (isValid : Bool)
    (hrec : ∀ h2 p2 u2 pw2 s, (recurse h2 p2 u2 pw2 s).2 = .ok [])
    (st1 : TraceState) :
    (childrenStep recurse ks ip isValid st1).2 = [] := by
  unfold childrenStep
  split
  · cases hfind : ks.find? (fun s => s.host == ip) with
    | some next =>
      dsimp only
      rw [hrec next.host next.port next.username next.password st1]
    | none => rfl
  · rfl

/-- A valid line whose peer ip is already visited gets empty children and
no extra log line: the in-function skip guard is bypassed because the
caller tests the visited set before recursing (lib.rs 447). -/
theorem childrenStep_already_visited
    (recurse : String → Nat → String → String → TraceState →
      TraceState × Except String (List ChainNode))
    (ks : List ServerConfig) (ip : String) (isValid : Bool)
    (st1 : TraceState) (hvis : st1.visited.contains ip = true) :
    childrenStep recurse ks ip isValid st1 = (st1, []) := by
  unfold childrenStep
  rw [if_neg (by rw [hvis]; simp)]

/-- A valid, unvisited peer ip that is absent from the known servers list
yields the configuration diagnostic and empty children, with no recursive
call (lib.rs 466-469). -/
theorem childrenStep_unknown
    (recurse : String → Nat → String → String → TraceState →
      TraceState × Except String (List ChainNode))
    (ks : List ServerConfig) (ip : String) (st1 : TraceState)
    (hvis : st1.visited.contains ip = false)
    (hfind : ks.find? (fun s => s.host == ip) = none) :
    childrenStep recurse ks ip true st1 =
      (pushLog st1 s!"[ERROR] 发现下一节点 IP {ip} 不在配置列表中。请先在服务器配置中添加该节点才能继续追踪。", []) := by
  unfold childrenStep
  rw [if_pos (by rw [hvis]; rfl), hfind]

/-- Every node pushed by the per-line loop carries the current host as its
ip: the peer ip parsed from a line is never stored in the node. -/
theorem processLines_ip
    (recurse : String → Nat → String → String → TraceState →
      TraceState × Except String (List ChainNode))
    (host lp : String) (ks : List ServerConfig) :
    ∀ lines st n, n ∈ (processLines recurse host lp ks lines st).2 →
      n.ip = host := by
  intro lines
  induction lines with
  | nil =>
    intro st n hn
    exact absurd hn (by simp [processLines])
  | cons line rest ih =>
    intro st n hn
    simp only [processLines] at hn
    cases hp : parse_chain_line line with
    | none =>
      rw [hp] at hn
      exact ih st n hn
    | some trip =>
      obtain ⟨f, id, ip⟩ := trip
      rw [hp] at hn
      dsimp only at hn
      rcases List.mem_cons.mp hn with rfl | hn2
      · rfl
      · exact ih _ n hn2

/-- If the recursive call always returns an empty ok-forest, every node
produced by the per-line loop has empty children. -/
theorem processLines_children_nil
    (recurse : String → Nat → String → String → TraceState →
      TraceState × Except String (List ChainNode))
    (host lp : String) (ks : List ServerConfig)
    (hrec : ∀ h2 p2 u2 pw2 s, (recurse h2 p2 u2 pw2 s).2 = .ok []) :
    ∀ lines st n, n ∈ (processLines recurse host lp ks lines st).2 →
      n.children = [] := by
  intro lines
  induction lines with
  | nil =>
    intro st n hn
    exact absurd hn (by simp [processLines])
  | cons line rest ih =>
    intro st n hn
    simp only [processLines] at hn
    cases hp : parse_chain_line line with
    | none =>
      rw [hp] at hn
      exact ih st n hn
    | some trip =>
      obtain ⟨f, id, ip⟩ := trip
      rw [hp] at hn
      dsimp only at hn
      rcases List.mem_cons.mp hn with rfl | hn2
      · show (childrenStep recurse ks ip _ _).2 = []
        exact childrenStep_snd_nil recurse ks ip _ hrec _
      · exact ih _ n hn2

/-- Fuel 0 of the trace body is exactly the `depth >= max_depth` guard. -/
theorem traceGo_zero (oracle : ExecOracle) (tid lp : String)
    (ks : List ServerConfig) (mD : Nat) (host : String) (port : Nat)
    (u p : String) (depth : Nat) (st : TraceState) :
    traceGo oracle tid lp ks mD 0 host port u p depth st =
      (pushLog st s!"[WARN] Max depth {mD} reached at {host}", .ok []) := rfl

/-- The depth guard (lib.rs 376-379): a call at `depth >= max_depth` logs
the warning and returns an empty node list without error. -/
theorem trace_chain_depth_guard (oracle : ExecOracle) (host : String)
    (port : Nat) (u p tid lp : String) (st : TraceState)
    (ks : List ServerConfig) (depth maxDepth : Nat)
    (h : maxDepth ≤ depth) :
    trace_chain_recursive oracle host port u p tid lp st ks depth maxDepth =
      (pushLog st s!"[WARN] Max depth {maxDepth} reached at {host}", .ok []) := by
  unfold trace_chain_recursive
  rw [Nat.sub_eq_zero_of_le h]
  rfl

/-- The in-function revisit guard (lib.rs 381-384): a call below the depth
bound on an already visited host logs the skip line and returns an empty
node list without error. -/
theorem trace_chain_skip_guard (oracle : ExecOracle) (host : String)
    (port : Nat) (u p tid lp : String) (st : TraceState)
    (ks : List ServerConfig) (depth maxDepth : Nat)
    (hd : depth < maxDepth) (hvis : st.visited.contains host = true) :
    trace_chain_recursive oracle host port u p tid lp st ks depth maxDepth =
      (pushLog st s!"[SKIP] Already visited: {host}", .ok []) := by
  unfold trace_chain_recursive
  have hfuel : maxDepth - depth = (maxDepth - depth - 1) + 1 := by omega
  rw [hfuel]
  simp only [traceGo]
  rw [if_neg (by omega), if_pos hvis]

/-- The visited list stays duplicate-free through the trace body: a host is
inserted only after the revisit guard established it is absent. -/
theorem traceGo_nodup (oracle : ExecOracle) (tid lp : String)
    (ks : List ServerConfig) (mD : Nat) :
    ∀ fuel host port u p depth st, st.visited.Nodup →
      ((traceGo oracle tid lp ks mD fuel host port u p depth st).1).visited.Nodup := by
  intro fuel
  induction fuel with
  | zero => intro host port u p depth st h; exact h
  | succ fuel ih =>
    intro host port u p depth st h
    simp only [traceGo]
    split
    · exact h
    · split
      · exact h
      · rename_i hguard hnc
        have hmem : host ∉ st.visited := by
          intro hmem
          exact hnc (List.elem_eq_true_of_mem hmem)
        have hcons : (host :: st.visited).Nodup :=
          List.nodup_cons.mpr ⟨hmem, h⟩
        cases horacle : oracle host port u p (primaryCmd lp tid) with
        | error e => exact hcons
        | ok output =>
          dsimp only
          split
          · show (pushLog (fallbackPhase oracle host port u p tid lp
              depth (nonEmptyLines output) _).1 _).visited.Nodup
            rw [pushLog_visited, fallbackPhase_visited]
            exact hcons
          · apply processLines_pres _ host lp ks _ (fun s l hs => hs)
              (fun h2 p2 u2 pw2 s hs => ih h2 p2 u2 pw2 (depth + 1) s hs)
            show ((pushLog (fallbackPhase oracle host port u p tid lp
              depth (nonEmptyLines output) _).1 _)).visited.Nodup
            rw [pushLog_visited, fallbackPhase_visited]
            exact hcons

/-- C5: every node placed in the forest returned by a visit of host H
carries ip = H, for both primary-search nodes and fallback nodes; the peer
ip parsed from a line only selects the next hop and is never stored as the
node's ip. -/
theorem C5_node_ip_is_current_host (oracle : ExecOracle) (host : String)
    (port : Nat) (u p tid lp : String) (st : TraceState)
    (ks : List ServerConfig) (depth maxDepth : Nat)
    (ns : List ChainNode)
    (hok : (trace_chain_recursive oracle host port u p tid lp st ks
      depth maxDepth).2 = .ok ns) :
    ∀ n ∈ ns, n.ip = host := by
  unfold trace_chain_recursive at hok
  cases hf : maxDepth - depth with
  | zero =>
    rw [hf] at hok
    rw [traceGo_zero] at hok
    injection hok with hns
    subst hns
    intro n hn
    exact absurd hn (by simp)
  | succ f =>
    rw [hf] at hok
    simp only [traceGo] at hok
    split at hok
    · injection hok with hns
      subst hns
      intro n hn
      exact absurd hn (by simp)
    · split at hok
      · injection hok with hns
        subst hns
        intro n hn
        exact absurd hn (by simp)
      · cases horacle : oracle host port u p (primaryCmd lp tid) with
        | error e =>
          rw [horacle] at hok
          exact absurd hok (by simp)
        | ok output =>
          rw [horacle] at hok
          dsimp only at hok
          split at hok
          · injection hok with hns
            subst hns
            intro n hn
            exact absurd hn (by simp)
          · injection hok with hns
            subst hns
            intro n hn
            rcases List.mem_append.mp hn with h1 | h2
            · exact processLines_ip _ host lp ks _ _ n h1
            · exact (fallbackPhase_nodes oracle host port u p tid lp
                depth (nonEmptyLines output) _ n h2).1

set_option maxRecDepth 8000 in
/-- C5 witness: a single primary line on host A pointing at an unknown
peer; the produced node carries ip "A". -/
theorem C5_node_ip_is_current_host_witness :
    (ChainNode.mk "app.log" "B001Y" "A" "/logs" []).ip = "A" := by
  have hok : (trace_chain_recursive
      (fun _ _ _ _ c =>
        if c == primaryCmd "/logs" "T1" then .ok "./app.log B001Y 10.0.0.5"
        else .ok "")
      "A" 22 "u" "p" "T1" "/logs" ⟨[], [], []⟩ [] 0 10).2 =
      .ok [ChainNode.mk "app.log" "B001Y" "A" "/logs" []] := by rfl
  exact C5_node_ip_is_current_host _ "A" 22 "u" "p" "T1" "/logs"
    ⟨[], [], []⟩ [] 0 10 _ hok
    (ChainNode.mk "app.log" "B001Y" "A" "/logs" []) (by simp)

/-- C4: a call of the recursive trace step at depth >= maxDepth logs the
warning and returns an empty list without error; with maxDepth = 1 a root
call executes commands only on the root host (never on a deeper host) and
every returned node has empty children — only the root's direct findings. -/
theorem C4_depth_guard_and_max_depth_one :
    (∀ (oracle : ExecOracle) (host : String) (port : Nat)
      (u p tid lp : String) (st : TraceState) (ks : List ServerConfig)
      (depth maxDepth : Nat), maxDepth ≤ depth →
      trace_chain_recursive oracle host port u p tid lp st ks depth maxDepth =
        (pushLog st s!"[WARN] Max depth {maxDepth} reached at {host}", .ok []))
    ∧ (∀ (oracle : ExecOracle) (host : String) (port : Nat)
        (u p tid lp : String) (st : TraceState) (ks : List ServerConfig),
        ∀ hc ∈ ((trace_chain_recursive oracle host port u p tid lp st ks
          0 1).1).execCalls, hc ∈ st.execCalls ∨ hc.1 = host)
    ∧ (∀ (oracle : ExecOracle) (host : String) (port : Nat)
        (u p tid lp : String) (st : TraceState) (ks : List ServerConfig)
        (ns : List ChainNode),
        (trace_chain_recursive oracle host port u p tid lp st ks 0 1).2 =
          .ok ns → ∀ n ∈ ns, n.children = []) := by
  refine ⟨trace_chain_depth_guard, ?_, ?_⟩
  · intro oracle host port u p tid lp st ks hc hmem
    unfold trace_chain_recursive at hmem
    rw [show (1 : Nat) - 0 = 0 + 1 from rfl] at hmem
    simp only [traceGo] at hmem
    rw [if_neg (by omega)] at hmem
    split at hmem
    · exact Or.inl hmem
    · cases horacle : oracle host port u p (primaryCmd lp tid) with
      | error e =>
        rw [horacle] at hmem
        dsimp only at hmem
        simp only [recordExec, pushLog, List.mem_append,
          List.mem_singleton] at hmem
        rcases hmem with h1 | h2
        · exact Or.inl h1
        · exact Or.inr (by rw [h2])
      | ok output =>
        rw [horacle] at hmem
        dsimp only at hmem
        split at hmem
        · rw [pushLog_execCalls, fallbackPhase_execCalls] at hmem
          split at hmem
          · simp only [recordExec, pushLog, List.mem_append,
              List.mem_singleton] at hmem
            rcases hmem with (h1 | h2) | h3
            · exact Or.inl h1
            · exact Or.inr (by rw [h2])
            · exact Or.inr (by rw [h3])
          · simp only [recordExec, pushLog, List.mem_append,
              List.mem_singleton] at hmem
            rcases hmem with h1 | h2
            · exact Or.inl h1
            · exact Or.inr (by rw [h2])
        · refine processLines_pres _ host lp ks
            (fun s => ∀ hc2 ∈ s.execCalls, hc2 ∈ st.execCalls ∨ hc2.1 = host)
            (fun s l hs hc2 h2 => hs hc2 h2)
            (fun h2 p2 u2 pw2 s hs => hs) _ _ ?_ hc hmem
          intro hc2 h2
          rw [pushLog_execCalls, fallbackPhase_execCalls] at h2
          split at h2
          · simp only [recordExec, pushLog, List.mem_append,
              List.mem_singleton] at h2
            rcases h2 with (h1 | h1) | h1
            · exact Or.inl h1
            · exact Or.inr (by rw [h1])
            · exact Or.inr (by rw [h1])
          · simp only [recordExec, pushLog, List.mem_append,
              List.mem_singleton] at h2
            rcases h2 with h1 | h1
            · exact Or.inl h1
            · exact Or.inr (by rw [h1])
  · intro oracle host port u p tid lp st ks ns hok n hn
    unfold trace_chain_recursive at hok
    rw [show (1 : Nat) - 0 = 0 + 1 from rfl] at hok
    simp only [traceGo] at hok
    rw [if_neg (by omega)] at hok
    split at hok
    · injection hok with hns
      subst hns
      exact absurd hn (by simp)
    · cases horacle : oracle host port u p (primaryCmd lp tid) with
      | error e =>
        rw [horacle] at hok
        exact absurd hok (by simp)
      | ok output =>
        rw [horacle] at hok
        dsimp only at hok
        split at hok
        · injection hok with hns
          subst hns
          exact absurd hn (by simp)
        · injection hok with hns
          subst hns
          rcases List.mem_append.mp hn with h1 | h2
          · exact processLines_children_nil _ host lp ks
              (fun h2 p2 u2 pw2 s => rfl) _ _ n h1
          · exact (fallbackPhase_nodes oracle host port u p tid lp
              0 (nonEmptyLines output) _ n h2).2

set_option maxRecDepth 8000 in
/-- C4 witness: the guard fires at depth 2 with maxDepth 1, and a root
call at maxDepth 1 whose primary line points at a known deeper server
still yields a leaf node — the deeper host is never contacted. -/
theorem C4_depth_guard_and_max_depth_one_witness :
    trace_chain_recursive (fun _ _ _ _ _ => .ok "") "A" 22 "u" "p" "T1"
        "/logs" ⟨[], [], []⟩ [] 2 1 =
      (pushLog ⟨[], [], []⟩ "[WARN] Max depth 1 reached at A", .ok [])
    ∧ (ChainNode.mk "a.log" "B002Z" "A" "/logs" []).children = [] := by
  constructor
  · exact (C4_depth_guard_and_max_depth_one.1 (fun _ _ _ _ _ => .ok "")
      "A" 22 "u" "p" "T1" "/logs" ⟨[], [], []⟩ [] 2 1 (by omega)).trans rfl
  · have hok : (trace_chain_recursive
        (fun h _ _ _ _ =>
          if h == "A" then .ok "a.log B002Z 10.0.0.9" else .ok "x")
        "A" 22 "u" "p" "T1" "/logs" ⟨[], [], []⟩
        [⟨"s2", "10.0.0.9", 2222, "u2", "p2", "", "", ""⟩] 0 1).2 =
        .ok [ChainNode.mk "a.log" "B002Z" "A" "/logs" []] := by rfl
    exact C4_depth_guard_and_max_depth_one.2.2
      (fun h _ _ _ _ =>
        if h == "A" then .ok "a.log B002Z 10.0.0.9" else .ok "x")
      "A" 22 "u" "p" "T1" "/logs" ⟨[], [], []⟩
      [⟨"s2", "10.0.0.9", 2222, "u2", "p2", "", "", ""⟩] _ hok
      (ChainNode.mk "a.log" "B002Z" "A" "/logs" []) (by simp)

/-- A dus id starting with B does not start with G. -/
theorem startsWithChar_B_not_G (s : String)
    (h : startsWithChar s 'B' = true) : startsWithChar s 'G' = false := by
  unfold startsWithChar at h ⊢
  cases hd : s.data with
  | nil => rfl
  | cons c0 cs =>
    rw [hd] at h
    dsimp only at h ⊢
    have hc : c0 = 'B' := by simpa using h
    subst hc
    rfl

/-- The source's fallback trigger, characterised: it holds exactly when
the primary line list is empty or no line parses to a non-G business id. -/
theorem needsFallback_iff (lines : List String) :
    needsFallback lines = true ↔
      (lines = [] ∨ ∀ l ∈ lines, ∀ f id ip,
        parse_chain_line l = some (f, id, ip) →
          startsWithChar id 'G' = true) := by
  unfold needsFallback hasNonG
  rw [Bool.or_eq_true, List.isEmpty_iff, Bool.not_eq_true']
  refine or_congr Iff.rfl ?_
  rw [List.any_eq_false]
  constructor
  · intro h l hl f id ip hp
    have hx := h l hl
    rw [hp] at hx
    simpa using hx
  · intro h l hl
    cases hp : parse_chain_line l with
    | none => simp
    | some trip =>
      obtain ⟨f, id, ip⟩ := trip
      simp [h l hl f id ip hp]

/-- C2: during a host visit, the secondary (fallback) search command is
executed if and only if the primary search produced no non-empty lines or
none of its lines both parses into a triple and carries a business id not
starting with G; in particular a primary line with a B-prefixed id
suppresses the fallback. -/
theorem C2_fallback_trigger (oracle : ExecOracle) (host : String)
    (port : Nat) (u p tid lp : String) (depth : Nat) (st : TraceState)
    (out : String) :
    (((fallbackPhase oracle host port u p tid lp depth
        (nonEmptyLines out) st).1).execCalls
        = st.execCalls ++ [(host, fallbackCmd lp tid)]
      ↔ (nonEmptyLines out = [] ∨ ∀ l ∈ nonEmptyLines out, ∀ f id ip,
          parse_chain_line l = some (f, id, ip) →
            startsWithChar id 'G' = true))
    ∧ ((∃ l ∈ nonEmptyLines out, ∃ f id ip,
          parse_chain_line l = some (f, id, ip) ∧
            startsWithChar id 'B' = true) →
        ((fallbackPhase oracle host port u p tid lp depth
          (nonEmptyLines out) st).1).execCalls = st.execCalls) := by
  have happne : ¬ st.execCalls = st.execCalls ++ [(host, fallbackCmd lp tid)] := by
    intro hEq
    have := congrArg List.length hEq
    simp at this
  constructor
  · rw [fallbackPhase_execCalls]
    by_cases hnf : needsFallback (nonEmptyLines out) = true
    · rw [if_pos hnf]
      exact ⟨fun _ => (needsFallback_iff _).mp hnf, fun _ => rfl⟩
    · rw [if_neg hnf]
      constructor
      · intro hEq
        exact absurd hEq happne
      · intro hRHS
        exact absurd ((needsFallback_iff _).mpr hRHS) hnf
  · rintro ⟨l, hl, f, id, ip, hp, hB⟩
    rw [fallbackPhase_execCalls]
    rw [if_neg ?_]
    intro hnf
    rcases (needsFallback_iff _).mp hnf with hnil | hall
    · rw [hnil] at hl
      exact absurd hl (by simp)
    · have hG := hall l hl f id ip hp
      rw [startsWithChar_B_not_G id hB] at hG
      cases hG

/-- C2 witness: a primary result with one B-prefixed line suppresses the
fallback, and the empty primary result triggers it. -/
theorem C2_fallback_trigger_witness :
    ((fallbackPhase (fun _ _ _ _ _ => .ok "") "A" 22 "u" "p" "T1" "/logs" 0
        (nonEmptyLines "a.log B002Z 10.0.0.9") ⟨[], [], []⟩).1).execCalls
      = (⟨[], [], []⟩ : TraceState).execCalls
    ∧ ((fallbackPhase (fun _ _ _ _ _ => .ok "") "A" 22 "u" "p" "T1" "/logs" 0
        (nonEmptyLines "") ⟨[], [], []⟩).1).execCalls
      = (⟨[], [], []⟩ : TraceState).execCalls ++
          [("A", fallbackCmd "/logs" "T1")] := by
  constructor
  · exact (C2_fallback_trigger (fun _ _ _ _ _ => .ok "") "A" 22 "u" "p"
      "T1" "/logs" 0 ⟨[], [], []⟩ "a.log B002Z 10.0.0.9").2
      ⟨"a.log B002Z 10.0.0.9", by decide,
        "a.log", "B002Z", "10.0.0.9", by decide, by decide⟩
  · exact (C2_fallback_trigger (fun _ _ _ _ _ => .ok "") "A" 22 "u" "p"
      "T1" "/logs" 0 ⟨[], [], []⟩ "").1.mpr (Or.inl (by decide))

set_option maxRecDepth 16000 in
/-- C3 counterexample: a two-hop trace in which host 10.0.0.9 is reached a
second time through its own self-referencing peer ip.  The second
encounter yields empty children and total_hops counts the host once, but
no "[SKIP] Already visited" line is ever appended to the trace log,
refuting the claim's skip-line part: the caller tests the visited set
before recursing (lib.rs 447), so the in-function skip guard never runs
within a trace started by trace_server_chain. -/
theorem C3_cycle_guard_counterexample :
    (trace_server_chain
        (fun h _ _ _ _ =>
          if h == "A" then .ok "a.log B002Z 10.0.0.9"
          else .ok "b.log C003W 10.0.0.9")
        "A" 22 "u" "p" "T1" "/logs"
        [⟨"s2", "10.0.0.9", 2222, "u2", "p2", "", "", ""⟩]).total_hops = 2
    ∧ (trace_server_chain
        (fun h _ _ _ _ =>
          if h == "A" then .ok "a.log B002Z 10.0.0.9"
          else .ok "b.log C003W 10.0.0.9")
        "A" 22 "u" "p" "T1" "/logs"
        [⟨"s2", "10.0.0.9", 2222, "u2", "p2", "", "", ""⟩]).nodes =
      [ChainNode.mk "a.log" "B002Z" "A" "/logs"
        [ChainNode.mk "b.log" "C003W" "10.0.0.9" "/logs" []]]
    ∧ ∀ l ∈ (trace_server_chain
        (fun h _ _ _ _ =>
          if h == "A" then .ok "a.log B002Z 10.0.0.9"
          else .ok "b.log C003W 10.0.0.9")
        "A" 22 "u" "p" "T1" "/logs"
        [⟨"s2", "10.0.0.9", 2222, "u2", "p2", "", "", ""⟩]).trace_log,
      l ≠ "[SKIP] Already visited: 10.0.0.9" ∧
        l ≠ "[SKIP] Already visited: A" := by
  refine ⟨by decide, rfl, by decide⟩

/-- C3 amended: when a host is reached a second time within the same
trace, the second encounter is cut off by the caller's visited check —
empty children, but no skip line is logged from within a trace; the
in-function skip guard (which does log) fires only when the recursive
step itself is invoked on an already visited host; and total_hops counts
every visited ip exactly once (the visited list stays duplicate-free). -/
theorem C3_cycle_guard_amended :
    (∀ (recurse : String → Nat → String → String → TraceState →
        TraceState × Except String (List ChainNode))
      (ks : List ServerConfig) (ip : String) (isValid : Bool)
      (st1 : TraceState), st1.visited.contains ip = true →
      childrenStep recurse ks ip isValid st1 = (st1, []))
    ∧ (∀ (oracle : ExecOracle) (host : String) (port : Nat)
        (u p tid lp : String) (st : TraceState) (ks : List ServerConfig)
        (depth maxDepth : Nat),
        depth < maxDepth → st.visited.contains host = true →
        trace_chain_recursive oracle host port u p tid lp st ks
          depth maxDepth =
          (pushLog st s!"[SKIP] Already visited: {host}", .ok []))
    ∧ (∀ (oracle : ExecOracle) (host : String) (port : Nat)
        (u p tid lp : String) (ks : List ServerConfig),
        ((trace_server_chain_core oracle host port u p tid lp ks).1).visited.Nodup
        ∧ ((trace_server_chain oracle host port u p tid lp ks).error = none →
            (trace_server_chain oracle host port u p tid lp ks).total_hops =
              ((trace_server_chain_core oracle host port u p tid lp
                ks).1).visited.length)) := by
  refine ⟨childrenStep_already_visited, trace_chain_skip_guard, ?_⟩
  intro oracle host port u p tid lp ks
  constructor
  · exact traceGo_nodup oracle tid lp ks 10 10 host port u p 0 _
      (by simp)
  · intro herr
    unfold trace_server_chain at herr ⊢
    rcases hcore : trace_server_chain_core oracle host port u p tid lp ks
      with ⟨st1, res⟩
    simp only [hcore] at herr ⊢
    cases res with
    | ok nodes => rfl
    | error e => exact absurd herr (by simp)

set_option maxRecDepth 8000 in
/-- C3 amended witness: a directly invoked recursive step on an already
visited host logs the skip line, and a one-host trace has duplicate-free
visited ips with total_hops equal to their count. -/
theorem C3_cycle_guard_amended_witness :
    trace_chain_recursive (fun _ _ _ _ _ => .ok "x") "A" 22 "u" "p" "T1"
        "/logs" ⟨[], ["A"], []⟩ [] 0 10 =
      (pushLog ⟨[], ["A"], []⟩ "[SKIP] Already visited: A", .ok [])
    ∧ ((trace_server_chain_core (fun _ _ _ _ _ => .error "boom") "A" 22
        "u" "p" "T1" "/logs" []).1).visited.Nodup := by
  constructor
  · exact (C3_cycle_guard_amended.2.1 (fun _ _ _ _ _ => .ok "x") "A" 22
      "u" "p" "T1" "/logs" ⟨[], ["A"], []⟩ [] 0 10 (by omega)
      (by decide)).trans rfl
  · exact (C3_cycle_guard_amended.2.2 (fun _ _ _ _ _ => .error "boom")
      "A" 22 "u" "p" "T1" "/logs" []).1

/-- C6: a primary line with a B/C-prefixed id whose peer ip is unvisited
but absent from the known servers produces a leaf node (empty children, no
recursion into that ip), appends the configuration diagnostic to the trace
log, and processing continues with the remaining sibling lines. -/
theorem C6_unknown_next_hop
    (recurse : String → Nat → String → String → TraceState →
      TraceState × Except String (List ChainNode))
    (host lp : String) (ks : List ServerConfig) (line : String)
    (rest : List String) (st : TraceState) (f id ip : String)
    (hp : parse_chain_line line = some (f, id, ip))
    (hval : is_valid_chain_node id = true)
    (hvis : st.visited.contains ip = false)
    (hfind : ks.find? (fun s => s.host == ip) = none) :
    processLines recurse host lp ks (line :: rest) st =
      (let nodeType := if is_valid_chain_node id then "有效节点" else "路由节点"
       let st1 := pushLog st s!"  -> {f} {id} {ip} ({nodeType})"
       let st2 := pushLog st1 s!"[ERROR] 发现下一节点 IP {ip} 不在配置列表中。请先在服务器配置中添加该节点才能继续追踪。"
       let r2 := processLines recurse host lp ks rest st2
       (r2.1, ChainNode.mk f id host lp [] :: r2.2)) := by
  simp only [processLines, hp]
  rw [hval]
  rw [childrenStep_unknown]
  · exact hvis
  · exact hfind

set_option maxRecDepth 8000 in
/-- C6 witness: one concrete line with peer 10.0.0.5 absent from an empty
known-servers list: leaf node, diagnostic, loop finished. -/
theorem C6_unknown_next_hop_witness :
    processLines (fun _ _ _ _ s => (s, .ok [])) "A" "/logs" []
        ["app.log B001Y 10.0.0.5"] ⟨[], ["A"], []⟩ =
      (⟨["  -> app.log B001Y 10.0.0.5 (有效节点)",
          "[ERROR] 发现下一节点 IP 10.0.0.5 不在配置列表中。请先在服务器配置中添加该节点才能继续追踪。"],
        ["A"], []⟩,
       [ChainNode.mk "app.log" "B001Y" "A" "/logs" []]) := by
  exact (C6_unknown_next_hop (fun _ _ _ _ s => (s, .ok [])) "A" "/logs" []
    "app.log B001Y 10.0.0.5" [] ⟨[], ["A"], []⟩ "app.log" "B001Y"
    "10.0.0.5" (by rfl) (by rfl) (by rfl) (by rfl)).trans rfl

/-- C1 counterexample: with an unreachable root host the result does carry
an empty forest and the error, but its trace log is the single line
"Error: boom" — the progress lines recorded before the failure (here the
"=== 开始追踪交易链路 ===" header, present in the internal state) are
discarded (lib.rs 544-550), refuting the partial-log part of the claim. -/
theorem C1_root_failure_log_counterexample :
    (trace_server_chain (fun _ _ _ _ _ => .error "boom") "A" 22 "u" "p"
      "T1" "/logs" []).nodes = []
    ∧ (trace_server_chain (fun _ _ _ _ _ => .error "boom") "A" 22 "u" "p"
      "T1" "/logs" []).error = some "boom"
    ∧ (trace_server_chain (fun _ _ _ _ _ => .error "boom") "A" 22 "u" "p"
      "T1" "/logs" []).trace_log = ["Error: boom"]
    ∧ "=== 开始追踪交易链路 ===" ∈ ((trace_server_chain_core
      (fun _ _ _ _ _ => .error "boom") "A" 22 "u" "p" "T1" "/logs"
      []).1).traceLog
    ∧ "=== 开始追踪交易链路 ===" ∉ (trace_server_chain
      (fun _ _ _ _ _ => .error "boom") "A" 22 "u" "p" "T1" "/logs"
      []).trace_log := by
  refine ⟨rfl, rfl, by decide, by decide, by decide⟩

/-- C1 amended: trace_server_chain always returns a result record; when
the root call fails with message e, the result has an empty nodes forest,
e in its error field, zero hops, and a trace log consisting solely of the
single line "Error: e" — the progress lines recorded before the failure
are discarded. -/
theorem C1_root_failure_result_amended (oracle : ExecOracle)
    (host : String) (port : Nat) (u p tid lp : String)
    (ks : List ServerConfig) (e : String)
    (herr : (trace_server_chain_core oracle host port u p tid lp ks).2 =
      .error e) :
    trace_server_chain oracle host port u p tid lp ks =
      { nodes := [], trace_log := [s!"Error: {e}"], total_hops := 0,
        error := some e } := by
  unfold trace_server_chain
  rcases hcore : trace_server_chain_core oracle host port u p tid lp ks
    with ⟨st1, res⟩
  rw [hcore] at herr
  simp only [hcore]
  dsimp only at herr
  subst herr
  rfl

/-- C1 amended witness: the always-failing network at the root. -/
theorem C1_root_failure_result_amended_witness :
    trace_server_chain (fun _ _ _ _ _ => .error "boom") "A" 22 "u" "p"
        "T1" "/logs" [] =
      { nodes := [], trace_log := ["Error: boom"], total_hops := 0,
        error := some "boom" } := by
  exact (C1_root_failure_result_amended (fun _ _ _ _ _ => .error "boom")
    "A" 22 "u" "p" "T1" "/logs" [] "boom" (by rfl)).trans rfl
